import Mathlib

/-!
Verification development for the cld3-docker caching request gateway.

The repository contains two variants of the same HTTP service:
* `server.js` — digest cache keys (`topN:fnv1a(text):length`), input
  truncation to `MAX_INPUT_CHARS`, topN-aware fast-fail response;
* an unnamed variant — exact cache keys (`text` or `topN\u0000text`),
  no truncation, fast-fail response that ignores `topN`.

Both share the same tiny LRU class built on a JS `Map` (insertion-ordered
association structure). We embed the `Map` as an association list in
insertion order (oldest first), with `set` updating in place when the key
exists (JS `Map.set` semantics) and appending otherwise, and `delete`
removing the (unique) matching entry.
-/

set_option linter.unusedSectionVars false

namespace Cld3

/-! ## JS Map embedding: insertion-ordered association list -/

variable {α : Type} {β : Type} [DecidableEq α]

/-- `Map.prototype.get`: value of the first entry with the given key. -/
def mapGet : List (α × β) → α → Option β
  | [], _ => none
  | p :: rest, k => if p.1 = k then some p.2 else mapGet rest k

/-- `Map.prototype.set`: update in place if the key exists, else append. -/
def mapSet : List (α × β) → α → β → List (α × β)
  | [], k, v => [(k, v)]
  | p :: rest, k, v => if p.1 = k then (k, v) :: rest else p :: mapSet rest k v

/-- `Map.prototype.delete`: remove the first entry with the given key. -/
def mapDelete : List (α × β) → α → List (α × β)
  | [], _ => []
  | p :: rest, k => if p.1 = k then rest else p :: mapDelete rest k

/-- The key sequence of a map, in insertion order (`map.keys()`). -/
def keysOf (m : List (α × β)) : List α := m.map Prod.fst

/-! ## The tiny LRU class (identical in both variants)

```js
class LRU {
  constructor(max) { this.max = max; this.map = new Map(); }
  get(key) {
    const v = this.map.get(key);
    if (v === undefined) return undefined;
    this.map.delete(key); this.map.set(key, v); return v;
  }
  set(key, val) {
    if (this.max <= 0) return;
    if (this.map.has(key)) this.map.delete(key);
    this.map.set(key, val);
    if (this.map.size > this.max) {
      const firstKey = this.map.keys().next().value;
      this.map.delete(firstKey);
    }
  }
}
```
Cached values are always objects, never `undefined`, so `Option` models
the `undefined` check faithfully. -/

structure LRU (α β : Type) where
  max : Int
  map : List (α × β)
deriving Repr, DecidableEq

/-- `new LRU(max)`. -/
def LRU.empty (max : Int) : LRU α β := ⟨max, []⟩

/-- `LRU.prototype.get`: on a hit, delete and re-insert (promoting the
entry to the most-recent end) and return the value. -/
def LRU.get (c : LRU α β) (k : α) : Option β × LRU α β :=
  match mapGet c.map k with
  | none => (none, c)
  | some v => (some v, { c with map := mapSet (mapDelete c.map k) k v })

/-- `LRU.prototype.set`: no-op when `max ≤ 0`; otherwise delete a prior
entry for the key, insert at the most-recent end, and if the size now
exceeds `max`, delete the first (least-recently-used) key. -/
def LRU.set (c : LRU α β) (k : α) (v : β) : LRU α β :=
  if c.max ≤ 0 then c
  else
    let m1 := if (mapGet c.map k).isSome then mapDelete c.map k else c.map
    let m2 := mapSet m1 k v
    if (m2.length : Int) > c.max then
      match m2 with
      | [] => { c with map := [] }
      | p :: _ => { c with map := mapDelete m2 p.1 }
    else { c with map := m2 }

/-- One cache operation, for reasoning about arbitrary call sequences. -/
inductive Op (α β : Type) where
  | get (k : α)
  | set (k : α) (v : β)

/-- Apply one operation, discarding `get`'s return value. -/
def applyOp (c : LRU α β) : Op α β → LRU α β
  | .get k => (c.get k).2
  | .set k v => c.set k v

/-- Run a sequence of cache operations. -/
def runOps (c : LRU α β) (ops : List (Op α β)) : LRU α β :=
  ops.foldl applyOp c

/-! ## FNV-1a 32-bit hash (`fnv1a` in `server.js`)

```js
function fnv1a(str) {
  let h = 2166136261;
  for (let i = 0; i < str.length; i++) {
    h ^= str.charCodeAt(i);
    h = Math.imul(h, 16777619);
  }
  return h >>> 0;
}
```
JS text is a sequence of UTF-16 code units; we model text as `List Char`
and `charCodeAt` as `Char.toNat` (they agree on all code points below
`0x10000`, which covers every text in this development). `Math.imul`
computes the product modulo 2^32 (as a signed 32-bit value) and the final
`>>> 0` reinterprets it as unsigned, so tracking the hash as a natural
number modulo 2^32 is bit-faithful. -/

def fnv1a (s : List Char) : Nat :=
  s.foldl (fun h c => ((h ^^^ c.toNat) * 16777619) % 4294967296) 2166136261

/-! ## Response data model

Probabilities are JS numbers; the claims only ever mention the constants
0 used by the fast-fail record, so we model them as integers (the
detector's outputs are opaque values). -/

/-- One cld3 language record. -/
structure Cld3Record where
  language : String
  probability : Int
  is_reliable : Bool
  proportion : Int
deriving Repr, DecidableEq

/-- The `cld3` field: a single record for `topN === 1`, a ranked array
otherwise. -/
inductive Cld3Result where
  | single (r : Cld3Record)
  | ranked (rs : List Cld3Record)
deriving Repr, DecidableEq

/-- The fast-fail record `{language: "und", probability: 0, is_reliable:
false, proportion: 0}`. -/
def undRecord : Cld3Record := ⟨"und", 0, false, 0⟩

/-- The response envelope `{input_len, cld3}` — the unit stored in the
cache and returned to callers. -/
structure Response where
  input_len : Nat
  cld3 : Cld3Result
deriving Repr, DecidableEq

/-- What a `/classify` handler run returns to the HTTP layer: either
`reply.code(c).send({error: msg})` or a 200 response body. -/
inductive Reply where
  | err (code : Nat) (msg : String)
  | ok (resp : Response)
deriving Repr, DecidableEq

/-- The cld3-asm identifier handle: `findLanguage` and
`findMostFrequentLanguages`, treated as opaque pure functions. -/
structure Detector where
  findLanguage : List Char → Cld3Record
  findMostFrequentLanguages : List Char → Nat → List Cld3Record

/-- The environment-derived configuration the handlers read. -/
structure Config where
  MIN_LEN : Int
  MAX_INPUT_CHARS : Nat

/-- The cache instance: string keys, cached response values. -/
abbrev Cache := LRU String Response

/-! ## Input normalization -/

/-- The whitespace class of JS `String.prototype.trim` (WhiteSpace and
line terminators; the common members suffice for this development). -/
def isJsWhitespace (c : Char) : Bool :=
  c = ' ' ∨ c = '\t' ∨ c = '\n' ∨ c = '\r' ∨ c = '\x0b' ∨ c = '\x0c' ∨
  c = Char.ofNat 160 ∨ c = Char.ofNat 65279

/-- `str.trim()`: strip leading and trailing whitespace. -/
def jsTrim (s : List Char) : List Char :=
  ((s.dropWhile isJsWhitespace).reverse.dropWhile isJsWhitespace).reverse

/-- `req.body.topN || 1`: `undefined` (and the falsy 0, which the schema
rules out anyway) default to 1. -/
def topNOrDefault : Option Nat → Nat
  | none => 1
  | some n => if n = 0 then 1 else n

/-! ## Cache key builders -/

/-- Digest key of `server.js`: `` `${topN}:${fnv1a(text)}:${text.length}` ``. -/
def digestKey (topN : Nat) (text : List Char) : String :=
  toString topN ++ ":" ++ toString (fnv1a text) ++ ":" ++ toString text.length

/-- Exact key of the unnamed variant:
`topN === 1 ? text : ` `` `${topN}\u0000${text}` ``. -/
def exactKey (topN : Nat) (text : List Char) : String :=
  if topN = 1 then String.mk text
  else toString topN ++ String.mk [Char.ofNat 0] ++ String.mk text

/-! ## The POST /classify handlers -/

/-- Result of one handler run: the reply, the cache after the run, and
how many times the detector was invoked. -/
structure ClassifyOut where
  reply : Reply
  cache : Cache
  detCalls : Nat
deriving DecidableEq

/-- The `server.js` handler (digest-key variant): readiness gate, trim
and truncate to `MAX_INPUT_CHARS`, empty-text 400, fast-fail below
`MIN_LEN` (topN-shaped), then digest-key cache probe and on miss a
detector call followed by a cache store. `identifier` is `true` exactly
when the detector handle is non-null. -/
def classify (cfg : Config) (det : Detector) (identifier : Bool)
    (cache : Cache) (bodyText : List Char) (bodyTopN : Option Nat) :
    ClassifyOut :=
  if identifier = false then ⟨.err 503 "Detector not ready yet.", cache, 0⟩
  else
    let topN := topNOrDefault bodyTopN
    let text := (jsTrim bodyText).take cfg.MAX_INPUT_CHARS
    if text = [] then ⟨.err 400 "Empty 'text'.", cache, 0⟩
    else if 0 < cfg.MIN_LEN ∧ (text.length : Int) < cfg.MIN_LEN then
      ⟨.ok ⟨text.length,
        if topN = 1 then .single undRecord else .ranked []⟩, cache, 0⟩
    else
      let key := digestKey topN text
      match cache.get key with
      | (some hit, c1) => ⟨.ok hit, c1, 0⟩
      | (none, c1) =>
        let result := if topN = 1 then Cld3Result.single (det.findLanguage text)
          else Cld3Result.ranked (det.findMostFrequentLanguages text topN)
        let out : Response := ⟨text.length, result⟩
        ⟨.ok out, c1.set key out, 1⟩

/-- The unnamed variant's handler (exact-key variant): readiness gate,
trim only (no truncation), empty-text 400, fast-fail below `MIN_LEN`
returning the single `und` record regardless of `topN`, then exact-key
cache probe and on miss a detector call followed by a cache store. -/
def classifyExact (cfg : Config) (det : Detector) (identifier : Bool)
    (cache : Cache) (bodyText : List Char) (bodyTopN : Option Nat) :
    ClassifyOut :=
  if identifier = false then ⟨.err 503 "Detector not ready yet.", cache, 0⟩
  else
    let text := jsTrim bodyText
    if text = [] then ⟨.err 400 "Empty 'text'.", cache, 0⟩
    else if 0 < cfg.MIN_LEN ∧ (text.length : Int) < cfg.MIN_LEN then
      ⟨.ok ⟨text.length, .single undRecord⟩, cache, 0⟩
    else
      let topN := topNOrDefault bodyTopN
      let key := exactKey topN text
      match cache.get key with
      | (some hit, c1) => ⟨.ok hit, c1, 0⟩
      | (none, c1) =>
        let result := if topN = 1 then Cld3Result.single (det.findLanguage text)
          else Cld3Result.ranked (det.findMostFrequentLanguages text topN)
        let out : Response := ⟨text.length, result⟩
        ⟨.ok out, c1.set key out, 1⟩

/-! ## Startup sequencing and the /ready endpoint

Both variants run, at module top level,
```js
let identifier = null;
async function initDetector() {
  const factory = await loadModule();
  identifier = factory.create(CLD_MIN_BYTES, CLD_MAX_BYTES);
}
await initDetector();
...
await app.listen({ port: PORT, host: HOST });
```
A top-level `await` of a rejected promise aborts module evaluation, so
`app.listen` runs only after `identifier` has been assigned the created
handle, and never runs if `loadModule`/`create` throw. `loadInit` below
is the outcome of `initDetector`'s awaited work: `some d` when it
assigns handle `d`, `none` when it throws. -/

/-- The observable state of a listening server process. -/
structure ServerState where
  identifier : Option Detector
  listening : Bool

/-- Module evaluation from `await initDetector()` through `app.listen`:
yields a listening state only when initialization succeeded, with the
handle already assigned. -/
def runStartup : Option Detector → Option ServerState
  | none => none
  | some d => some ⟨some d, true⟩

/-- The GET /ready handler: `503 {ok: false}` when `identifier` is null,
else `200 {ok: true}`. Encoded as (status code, `ok` field). -/
def readyEndpoint (identifier : Bool) : Nat × Bool :=
  if identifier = false then (503, false) else (200, true)

/-- A test-double detector that reports the exact text it was given as
the language code (a call counter made visible through the result). -/
def echoDet : Detector :=
  ⟨fun t => ⟨String.mk t, 1, true, 1⟩,
   fun t _ => [⟨String.mk t, 1, true, 1⟩]⟩

/-- A test-double detector that reports the length of the text it was
given, to observe how many characters reach the detector. -/
def lenDet : Detector :=
  ⟨fun t => ⟨toString t.length, 0, false, 0⟩, fun _ _ => []⟩

/-- Well-formedness of a cache state: keys are distinct (a JS `Map`
guarantee), the size respects the capacity when caching is enabled, and a
disabled cache is empty. Holds for `LRU.empty` and is preserved by `get`
and `set`. -/
def LRU.Inv (c : LRU α β) : Prop :=
  (keysOf c.map).Nodup ∧ (0 < c.max → (c.map.length : Int) ≤ c.max) ∧
    (c.max ≤ 0 → c.map = [])

/-! ## Basic facts about the Map embedding -/

theorem keysOf_nil : keysOf ([] : List (α × β)) = [] := rfl

theorem keysOf_cons (p : α × β) (m : List (α × β)) :
    keysOf (p :: m) = p.1 :: keysOf m := rfl

theorem keysOf_append (m1 m2 : List (α × β)) :
    keysOf (m1 ++ m2) = keysOf m1 ++ keysOf m2 := by
  simp [keysOf]

theorem mapGet_eq_none {m : List (α × β)} {k : α} :
    mapGet m k = none ↔ k ∉ keysOf m := by
  induction m with
  | nil => simp [mapGet, keysOf]
  | cons p rest ih =>
    by_cases h : p.1 = k
    · subst h
      simp [mapGet, keysOf_cons]
    · simp only [mapGet, keysOf_cons, if_neg h, List.mem_cons, ih]
      constructor
      · rintro hk ⟨rfl | hm⟩
        · exact h rfl
        · exact hk ‹_›
      · intro hk hm
        exact hk (Or.inr hm)

theorem mapGet_isSome_iff {m : List (α × β)} {k : α} :
    (mapGet m k).isSome = true ↔ k ∈ keysOf m := by
  rcases h : mapGet m k with _ | v
  · simpa using mapGet_eq_none.mp h
  · simp only [Option.isSome_some, true_iff]
    by_contra hk
    rw [mapGet_eq_none.mpr hk] at h
    exact Option.noConfusion h

theorem mem_keysOf_of_mapGet {m : List (α × β)} {k : α} {v : β}
    (h : mapGet m k = some v) : k ∈ keysOf m := by
  rw [← mapGet_isSome_iff, h]
  rfl

theorem mapSet_of_not_mem {m : List (α × β)} {k : α} (v : β)
    (h : k ∉ keysOf m) : mapSet m k v = m ++ [(k, v)] := by
  induction m with
  | nil => rfl
  | cons p rest ih =>
    rw [keysOf_cons, List.mem_cons] at h
    push_neg at h
    have hp : p.1 ≠ k := fun hk => h.1 hk.symm
    simp [mapSet, if_neg hp, ih h.2]

theorem keysOf_mapSet_of_mem {m : List (α × β)} {k : α} (v : β)
    (h : k ∈ keysOf m) : keysOf (mapSet m k v) = keysOf m := by
  induction m with
  | nil => cases h
  | cons p rest ih =>
    by_cases hp : p.1 = k
    · simp [mapSet, if_pos hp, keysOf_cons, hp]
    · rw [keysOf_cons, List.mem_cons] at h
      rcases h with rfl | h
      · exact absurd rfl hp
      · simp [mapSet, if_neg hp, keysOf_cons, ih h]

theorem mapGet_mapSet_self (m : List (α × β)) (k : α) (v : β) :
    mapGet (mapSet m k v) k = some v := by
  induction m with
  | nil => simp [mapSet, mapGet]
  | cons p rest ih =>
    by_cases hp : p.1 = k
    · simp [mapSet, if_pos hp, mapGet]
    · simp [mapSet, if_neg hp, mapGet, hp, ih]

theorem mapDelete_sublist (m : List (α × β)) (k : α) :
    (mapDelete m k).Sublist m := by
  induction m with
  | nil => simp [mapDelete]
  | cons p rest ih =>
    by_cases hp : p.1 = k
    · simp only [mapDelete, if_pos hp]
      exact (List.sublist_cons_self p rest)
    · simp only [mapDelete, if_neg hp]
      exact ih.cons₂ p

theorem mapDelete_of_not_mem {m : List (α × β)} {k : α}
    (h : k ∉ keysOf m) : mapDelete m k = m := by
  induction m with
  | nil => rfl
  | cons p rest ih =>
    rw [keysOf_cons, List.mem_cons] at h
    push_neg at h
    have hp : p.1 ≠ k := fun hk => h.1 hk.symm
    simp [mapDelete, if_neg hp, ih h.2]

theorem length_mapDelete_of_mem {m : List (α × β)} {k : α}
    (h : k ∈ keysOf m) : (mapDelete m k).length + 1 = m.length := by
  induction m with
  | nil => cases h
  | cons p rest ih =>
    by_cases hp : p.1 = k
    · simp [mapDelete, if_pos hp]
    · rw [keysOf_cons, List.mem_cons] at h
      rcases h with rfl | h
      · exact absurd rfl hp
      · simp only [mapDelete, if_neg hp, List.length_cons]
        rw [← ih h]

theorem not_mem_keysOf_mapDelete {m : List (α × β)} {k : α}
    (hnd : (keysOf m).Nodup) : k ∉ keysOf (mapDelete m k) := by
  induction m with
  | nil => simp [mapDelete, keysOf]
  | cons p rest ih =>
    rw [keysOf_cons, List.nodup_cons] at hnd
    by_cases hp : p.1 = k
    · simp only [mapDelete, if_pos hp]
      subst hp
      exact hnd.1
    · simp only [mapDelete, if_neg hp, keysOf_cons, List.mem_cons]
      rintro (rfl | hm)
      · exact hp rfl
      · exact ih hnd.2 hm

theorem nodup_keysOf_mapDelete {m : List (α × β)} (k : α)
    (hnd : (keysOf m).Nodup) : (keysOf (mapDelete m k)).Nodup :=
  (((mapDelete_sublist m k).map Prod.fst).nodup hnd)

theorem mapGet_append_of_not_mem {m : List (α × β)} {k : α} (v : β)
    (h : k ∉ keysOf m) : mapGet (m ++ [(k, v)]) k = some v := by
  induction m with
  | nil => simp [mapGet]
  | cons p rest ih =>
    rw [keysOf_cons, List.mem_cons] at h
    push_neg at h
    have hp : p.1 ≠ k := fun hk => h.1 hk.symm
    simp only [List.cons_append, mapGet, if_neg hp]
    exact ih h.2

theorem keysOf_mapDelete_perm {m : List (α × β)} {k : α}
    (h : k ∈ keysOf m) :
    List.Perm (keysOf m) (k :: keysOf (mapDelete m k)) := by
  induction m with
  | nil => cases h
  | cons p rest ih =>
    by_cases hp : p.1 = k
    · simp only [mapDelete, if_pos hp, keysOf_cons, hp]
      exact List.Perm.refl _
    · rw [keysOf_cons, List.mem_cons] at h
      rcases h with rfl | h
      · exact absurd rfl hp
      · simp only [mapDelete, if_neg hp, keysOf_cons]
        exact ((ih h).cons p.1).trans (List.Perm.swap k p.1 _)

/-! ## LRU operation facts -/

theorem LRU.get_miss {c : LRU α β} {k : α}
    (h : mapGet c.map k = none) : c.get k = (none, c) := by
  simp [LRU.get, h]

theorem LRU.get_hit {c : LRU α β} {k : α} {v : β}
    (h : mapGet c.map k = some v) (hnd : (keysOf c.map).Nodup) :
    c.get k = (some v, ⟨c.max, mapDelete c.map k ++ [(k, v)]⟩) := by
  simp only [LRU.get, h]
  rw [mapSet_of_not_mem v (not_mem_keysOf_mapDelete hnd)]

theorem LRU.get_max (c : LRU α β) (k : α) : ((c.get k).2).max = c.max := by
  rcases h : mapGet c.map k with _ | v <;> simp [LRU.get, h]

theorem LRU.get_keys_perm (c : LRU α β) (k : α)
    (hnd : (keysOf c.map).Nodup) :
    List.Perm (keysOf ((c.get k).2).map) (keysOf c.map) := by
  rcases h : mapGet c.map k with _ | v
  · rw [LRU.get_miss h]
  · rw [LRU.get_hit h hnd]
    have hk : k ∈ keysOf c.map := mem_keysOf_of_mapGet h
    have h1 : keysOf (mapDelete c.map k ++ [(k, v)]) =
        keysOf (mapDelete c.map k) ++ [k] := by
      rw [keysOf_append]; rfl
    dsimp only
    rw [h1]
    exact (List.perm_append_singleton k _).trans
      (keysOf_mapDelete_perm hk).symm

theorem LRU.Inv_get {c : LRU α β} (k : α) (h : c.Inv) :
    ((c.get k).2).Inv := by
  obtain ⟨hnd, hlen, hz⟩ := h
  have hperm := LRU.get_keys_perm c k hnd
  refine ⟨hperm.nodup_iff.mpr hnd, ?_, ?_⟩
  · intro hpos
    have hle : (keysOf ((c.get k).2).map).length = (keysOf c.map).length :=
      hperm.length_eq
    simp only [keysOf, List.length_map] at hle
    rw [hle, LRU.get_max]
    exact hlen (by rwa [LRU.get_max] at hpos)
  · intro hneg
    rw [LRU.get_max] at hneg
    have hmap := hz hneg
    have : mapGet c.map k = none := by
      rw [hmap]; rfl
    rw [LRU.get_miss this, hmap]

theorem LRU.set_map_spec (c : LRU α β) (k : α) (v : β)
    (hmax : ¬ c.max ≤ 0) (hnd : (keysOf c.map).Nodup) :
    ∃ m1 : List (α × β),
      m1 = (if (mapGet c.map k).isSome then mapDelete c.map k else c.map) ∧
      k ∉ keysOf m1 ∧ (keysOf m1).Nodup ∧ m1.length ≤ c.map.length ∧
      ((¬ (((m1 ++ [(k, v)]).length : Nat) : Int) > c.max ∧
          (c.set k v).map = m1 ++ [(k, v)]) ∨
       ((((m1 ++ [(k, v)]).length : Nat) : Int) > c.max ∧ m1 ≠ [] ∧
          (c.set k v).map = m1.tail ++ [(k, v)])) := by
  refine ⟨_, rfl, ?_, ?_, ?_, ?_⟩
  · by_cases hk : (mapGet c.map k).isSome
    · rw [if_pos hk]
      exact not_mem_keysOf_mapDelete hnd
    · rw [if_neg hk]
      exact mapGet_eq_none.mp (Option.not_isSome_iff_eq_none.mp hk)
  · by_cases hk : (mapGet c.map k).isSome
    · rw [if_pos hk]
      exact nodup_keysOf_mapDelete k hnd
    · rwa [if_neg hk]
  · by_cases hk : (mapGet c.map k).isSome
    · rw [if_pos hk]
      exact (mapDelete_sublist c.map k).length_le
    · rw [if_neg hk]
  · have hnotmem : k ∉ keysOf
        (if (mapGet c.map k).isSome then mapDelete c.map k else c.map) := by
      by_cases hk : (mapGet c.map k).isSome
      · rw [if_pos hk]
        exact not_mem_keysOf_mapDelete hnd
      · rw [if_neg hk]
        exact mapGet_eq_none.mp (Option.not_isSome_iff_eq_none.mp hk)
    unfold LRU.set
    rw [if_neg hmax]
    dsimp only
    rw [mapSet_of_not_mem v hnotmem]
    revert hnotmem
    generalize (if (mapGet c.map k).isSome then mapDelete c.map k
      else c.map) = m1
    intro hnotmem
    by_cases hover : (((m1 ++ [(k, v)]).length : Nat) : Int) > c.max
    · rw [if_pos hover]
      rcases m1 with _ | ⟨p, t⟩
      · exfalso
        simp only [List.nil_append, List.length_singleton] at hover
        omega
      · refine Or.inr ⟨hover, by simp, ?_⟩
        simp only [List.cons_append]
        simp [mapDelete]
    · rw [if_neg hover]
      exact Or.inl ⟨hover, rfl⟩

theorem LRU.set_max (c : LRU α β) (k : α) (v : β) :
    (c.set k v).max = c.max := by
  unfold LRU.set
  split
  · rfl
  · dsimp only
    repeat' split
    all_goals rfl

theorem LRU.set_of_nonpos {c : LRU α β} (k : α) (v : β)
    (hmax : c.max ≤ 0) : c.set k v = c := by
  unfold LRU.set
  rw [if_pos hmax]

theorem LRU.Inv_set {c : LRU α β} (k : α) (v : β) (h : c.Inv) :
    (c.set k v).Inv := by
  obtain ⟨hnd, hlen, hz⟩ := h
  by_cases hmax : c.max ≤ 0
  · rw [LRU.set_of_nonpos k v hmax]
    exact ⟨hnd, hlen, hz⟩
  · obtain ⟨m1, _, hm1k, hm1nd, hm1len, hcases⟩ :=
      LRU.set_map_spec c k v hmax hnd
    have hmaxeq := LRU.set_max c k v
    rcases hcases with ⟨hfit, hmap⟩ | ⟨hover, hne, hmap⟩
    · refine ⟨?_, ?_, ?_⟩
      · rw [hmap, keysOf_append]
        refine (List.perm_append_singleton k _).nodup_iff.mpr ?_
        exact List.nodup_cons.mpr ⟨hm1k, hm1nd⟩
      · intro _
        rw [hmaxeq, hmap]
        omega
      · intro hneg
        rw [hmaxeq] at hneg
        exact absurd hneg hmax
    · refine ⟨?_, ?_, ?_⟩
      · rw [hmap, keysOf_append]
        have htl : keysOf m1.tail |>.Sublist (keysOf m1) :=
          (List.tail_sublist m1).map Prod.fst
        refine (List.perm_append_singleton k _).nodup_iff.mpr ?_
        refine List.nodup_cons.mpr ⟨fun hk => hm1k (htl.mem hk), htl.nodup hm1nd⟩
      · intro hpos
        rw [hmaxeq, hmap]
        have h1 : m1.tail.length + 1 = m1.length := by
          rcases m1 with _ | ⟨p, t⟩
          · exact absurd rfl hne
          · rfl
        have h2 : (c.map.length : Int) ≤ c.max := hlen (by rwa [hmaxeq] at hpos)
        simp only [List.length_append, List.length_singleton]
        omega
      · intro hneg
        rw [hmaxeq] at hneg
        exact absurd hneg hmax

theorem LRU.Inv_empty (max : Int) :
    (LRU.empty max : LRU α β).Inv := by
  refine ⟨List.nodup_nil, fun hpos => ?_, fun _ => rfl⟩
  simp only [LRU.empty] at hpos ⊢
  simp only [List.length_nil, Nat.cast_zero]
  omega

theorem LRU.Inv_applyOp {c : LRU α β} (op : Op α β) (h : c.Inv) :
    (applyOp c op).Inv := by
  cases op with
  | get k => exact LRU.Inv_get k h
  | set k v => exact LRU.Inv_set k v h

theorem LRU.Inv_runOps {c : LRU α β} (ops : List (Op α β)) (h : c.Inv) :
    (runOps c ops).Inv := by
  induction ops generalizing c with
  | nil => exact h
  | cons op rest ih => exact ih (LRU.Inv_applyOp op h)

theorem applyOp_max (c : LRU α β) (op : Op α β) :
    (applyOp c op).max = c.max := by
  cases op with
  | get k => exact LRU.get_max c k
  | set k v => exact LRU.set_max c k v

theorem runOps_max (c : LRU α β) (ops : List (Op α β)) :
    (runOps c ops).max = c.max := by
  induction ops generalizing c with
  | nil => rfl
  | cons op rest ih => exact (ih (applyOp c op)).trans (applyOp_max c op)

theorem LRU.set_get_self (c : LRU α β) (k : α) (v : β)
    (hmax : ¬ c.max ≤ 0) (hnd : (keysOf c.map).Nodup) :
    mapGet (c.set k v).map k = some v := by
  obtain ⟨m1, _, hm1k, _, _, hcases⟩ := LRU.set_map_spec c k v hmax hnd
  rcases hcases with ⟨_, hmap⟩ | ⟨_, _, hmap⟩
  · rw [hmap]
    exact mapGet_append_of_not_mem v hm1k
  · rw [hmap]
    refine mapGet_append_of_not_mem v fun hk => ?_
    exact hm1k (((List.tail_sublist m1).map Prod.fst).mem hk)

/-! ## Claim C1 -/

/-- C1 (amended): for every LRU cache of capacity `max ≥ 1` and every
sequence of get/set operations, the number of stored entries never
exceeds `max`; a set that makes the size exceed `max` evicts exactly one
entry, the least-recently-used one, and appends the new entry as
most-recently-used; and a get on a present key promotes it to
most-recently-used, so when `max ≥ 2` it is never the entry evicted by
the next overflowing set. (At `max = 1` the promoted key is the only
prior entry, hence necessarily the one evicted — see the
counterexample.) -/
theorem C1_lru_capacity_eviction_promotion :
    ∀ (α β : Type) [DecidableEq α],
      (∀ max : Int, 1 ≤ max → ∀ ops : List (Op α β),
        (((runOps (LRU.empty max) ops).map.length : Nat) : Int) ≤ max) ∧
      (∀ (c : LRU α β) (k : α) (v : β),
        (keysOf c.map).Nodup → 1 ≤ c.max → (c.map.length : Int) = c.max →
        k ∉ keysOf c.map →
        ∃ p t, c.map = p :: t ∧ (c.set k v).map = t ++ [(k, v)]) ∧
      (∀ (c : LRU α β) (k k' : α) (v' : β),
        (keysOf c.map).Nodup → 2 ≤ c.max → k ∈ keysOf c.map →
        k' ∉ keysOf c.map →
        k ∈ keysOf (((c.get k).2).set k' v').map) := by
  intro α β inst
  refine ⟨?_, ?_, ?_⟩
  · intro max hmax ops
    have hInv := LRU.Inv_runOps (c := LRU.empty max) ops (LRU.Inv_empty max)
    have h := hInv.2.1
    rw [runOps_max] at h
    exact h (by simp only [LRU.empty]; omega)
  · intro c k v hnd hmax hfull hk
    have hmax' : ¬ c.max ≤ 0 := by omega
    obtain ⟨m1, hm1, _, _, _, hcases⟩ := LRU.set_map_spec c k v hmax' hnd
    have hnone : mapGet c.map k = none := mapGet_eq_none.mpr hk
    have hm1eq : m1 = c.map := by
      rw [hm1, hnone]
      rfl
    subst hm1eq
    rcases hcases with ⟨hfit, _⟩ | ⟨_, hne, hmap⟩
    · exfalso
      apply hfit
      simp only [List.length_append, List.length_singleton]
      push_cast
      omega
    · rcases hmc : c.map with _ | ⟨p, t⟩
      · rw [hmc] at hne
        exact absurd rfl hne
      · refine ⟨p, t, rfl, ?_⟩
        rw [hmap, hmc]
        simp
  · intro c k k' v' hnd hmax2 hk hk'
    have hsome : (mapGet c.map k).isSome := mapGet_isSome_iff.mpr hk
    obtain ⟨v0, hv0⟩ := Option.isSome_iff_exists.mp hsome
    have hget := LRU.get_hit hv0 hnd
    have hc1 : (c.get k).2 = ⟨c.max, mapDelete c.map k ++ [(k, v0)]⟩ := by
      rw [hget]
    have hknd : (keysOf ((c.get k).2).map).Nodup :=
      ((LRU.get_keys_perm c k hnd).nodup_iff).mpr hnd
    have hk'notin : k' ∉ keysOf ((c.get k).2).map := by
      rw [hc1]
      simp only [keysOf_append, List.mem_append]
      rintro (hd | hs)
      · exact hk' (((mapDelete_sublist c.map k).map Prod.fst).mem hd)
      · simp only [keysOf, List.map_cons, List.map_nil, List.mem_singleton] at hs
        rw [hs] at hk'
        exact hk' hk
    have hmax' : ¬ ((c.get k).2).max ≤ 0 := by
      rw [LRU.get_max]
      omega
    obtain ⟨m1, hm1, _, _, _, hcases⟩ :=
      LRU.set_map_spec ((c.get k).2) k' v' hmax' hknd
    have hm1eq : m1 = ((c.get k).2).map := by
      rw [hm1, mapGet_eq_none.mpr hk'notin]
      rfl
    subst hm1eq
    have hkmem : k ∈ keysOf (((c.get k).2).map) := by
      rw [hc1]
      simp only [keysOf_append, List.mem_append]
      right
      simp [keysOf]
    have hmap1 : ((c.get k).2).map = mapDelete c.map k ++ [(k, v0)] := by
      rw [hc1]
    rcases hcases with ⟨_, hmap⟩ | ⟨hover, _, hmap⟩
    · rw [hmap]
      simp only [keysOf_append, List.mem_append]
      exact Or.inl hkmem
    · rw [LRU.get_max] at hover
      rw [hmap1] at hover hmap
      rcases hdc : mapDelete c.map k with _ | ⟨p, t⟩
      · exfalso
        rw [hdc] at hover
        simp only [List.nil_append, List.length_append,
          List.length_singleton, List.length_cons, List.length_nil] at hover
        omega
      · rw [hmap, hdc]
        simp only [List.cons_append, List.tail_cons, keysOf_append,
          List.mem_append]
        refine Or.inl (Or.inr ?_)
        simp [keysOf]

/-- C1 witness: the amended claim applied at concrete caches. -/
theorem C1_lru_capacity_eviction_promotion_witness :
    ((((runOps (LRU.empty 2 : LRU Nat Nat)
        [Op.set 0 10, Op.set 1 11, Op.set 2 12]).map.length : Nat) : Int) ≤ 2) ∧
    (∃ p t, ({ max := 2, map := [(5, 50), (6, 60)] } : LRU Nat Nat).map = p :: t ∧
      (({ max := 2, map := [(5, 50), (6, 60)] } : LRU Nat Nat).set 7 70).map =
        t ++ [(7, 70)]) ∧
    (5 ∈ keysOf (((({ max := 2, map := [(5, 50), (6, 60)] } :
        LRU Nat Nat).get 5).2).set 7 70).map) :=
  ⟨(C1_lru_capacity_eviction_promotion Nat Nat).1 2 (by decide) _,
   (C1_lru_capacity_eviction_promotion Nat Nat).2.1 _ 7 70 (by decide)
     (by decide) (by decide) (by decide),
   (C1_lru_capacity_eviction_promotion Nat Nat).2.2 _ 5 7 70 (by decide)
     (by decide) (by decide) (by decide)⟩

/-- C1 counterexample: with capacity `max = 1`, a key promoted by `get`
IS the entry evicted by the next overflowing `set`, contradicting the
claim's promotion clause as stated for all `max ≥ 1`. -/
theorem C1_lru_capacity_eviction_promotion_cex :
    (((LRU.empty 1 : LRU Nat Nat).set 0 0).get 0).1 = some 0 ∧
    keysOf ((((((LRU.empty 1 : LRU Nat Nat).set 0 0).get 0).2).set 1 1).map) =
      [1] := by
  decide

/-! ## Claim C8 -/

/-- C8: for a cache constructed with capacity `max ≤ 0`, `set` is a
no-op, and after any sequence of operations from the empty cache every
`get` returns absent. -/
theorem C8_disabled_cache_never_stores :
    ∀ (α β : Type) [DecidableEq α],
      (∀ (c : LRU α β) (k : α) (v : β), c.max ≤ 0 → c.set k v = c) ∧
      (∀ max : Int, max ≤ 0 → ∀ (ops : List (Op α β)) (k : α),
        ((runOps (LRU.empty max) ops).get k).1 = none) := by
  intro α β inst
  refine ⟨fun c k v h => LRU.set_of_nonpos k v h, ?_⟩
  intro max hmax ops k
  have hInv := LRU.Inv_runOps (c := LRU.empty max) ops (LRU.Inv_empty max)
  have hmap : (runOps (LRU.empty max) ops).map = [] :=
    hInv.2.2 (by rw [runOps_max]; exact hmax)
  have hnone : mapGet (runOps (LRU.empty max) ops).map k = none := by
    rw [hmap]
    rfl
  rw [LRU.get_miss hnone]

/-- C8 witness: concrete disabled cache. -/
theorem C8_disabled_cache_never_stores_witness :
    (({ max := 0, map := [] } : LRU Nat Nat).set 3 4 =
      { max := 0, map := [] }) ∧
    ((runOps (LRU.empty 0 : LRU Nat Nat)
      [Op.set 1 2, Op.get 1, Op.set 5 6]).get 1).1 = none :=
  ⟨(C8_disabled_cache_never_stores Nat Nat).1 _ 3 4 (by decide),
   (C8_disabled_cache_never_stores Nat Nat).2 0 (by decide) _ 1⟩

/-! ## Classify path helpers -/

theorem LRU.get_of_mapGet_some {c : LRU α β} {k : α} {v : β}
    (h : mapGet c.map k = some v) :
    c.get k = (some v, ⟨c.max, mapSet (mapDelete c.map k) k v⟩) := by
  unfold LRU.get
  rw [h]

theorem LRU.get_hit_mapGet {c : LRU α β} {k : α} {v : β}
    (h : (c.get k).1 = some v) : mapGet ((c.get k).2).map k = some v := by
  rcases hm : mapGet c.map k with _ | w
  · rw [LRU.get_miss hm] at h
    exact absurd h (by simp)
  · rw [LRU.get_of_mapGet_some hm] at h ⊢
    obtain rfl : w = v := by injection h
    exact mapGet_mapSet_self _ _ _

theorem LRU.get_none {c : LRU α β} {k : α} {c' : LRU α β}
    (h : c.get k = (none, c')) : c' = c ∧ mapGet c.map k = none := by
  rcases hm : mapGet c.map k with _ | w
  · rw [LRU.get_miss hm] at h
    exact ⟨(congrArg Prod.snd h).symm, rfl⟩
  · rw [LRU.get_of_mapGet_some hm] at h
    exact absurd (congrArg Prod.fst h) (by simp)

theorem classify_hit {cfg : Config} (det : Detector) {cache : Cache}
    {bodyText : List Char} {bodyTopN : Option Nat} {v : Response} {c1 : Cache}
    (hne : (jsTrim bodyText).take cfg.MAX_INPUT_CHARS ≠ [])
    (hlen : ¬ (0 < cfg.MIN_LEN ∧
      ((((jsTrim bodyText).take cfg.MAX_INPUT_CHARS).length : Nat) : Int) <
        cfg.MIN_LEN))
    (hget : cache.get (digestKey (topNOrDefault bodyTopN)
      ((jsTrim bodyText).take cfg.MAX_INPUT_CHARS)) = (some v, c1)) :
    classify cfg det true cache bodyText bodyTopN = ⟨.ok v, c1, 0⟩ := by
  unfold classify
  rw [if_neg (by decide : ¬ (true = false))]
  dsimp only
  rw [if_neg hne, if_neg hlen, hget]

theorem classify_miss {cfg : Config} (det : Detector) {cache : Cache}
    {bodyText : List Char} {bodyTopN : Option Nat} {c1 : Cache}
    (hne : (jsTrim bodyText).take cfg.MAX_INPUT_CHARS ≠ [])
    (hlen : ¬ (0 < cfg.MIN_LEN ∧
      ((((jsTrim bodyText).take cfg.MAX_INPUT_CHARS).length : Nat) : Int) <
        cfg.MIN_LEN))
    (hget : cache.get (digestKey (topNOrDefault bodyTopN)
      ((jsTrim bodyText).take cfg.MAX_INPUT_CHARS)) = (none, c1)) :
    classify cfg det true cache bodyText bodyTopN =
      ⟨.ok ⟨((jsTrim bodyText).take cfg.MAX_INPUT_CHARS).length,
          if topNOrDefault bodyTopN = 1
          then Cld3Result.single
            (det.findLanguage ((jsTrim bodyText).take cfg.MAX_INPUT_CHARS))
          else Cld3Result.ranked (det.findMostFrequentLanguages
            ((jsTrim bodyText).take cfg.MAX_INPUT_CHARS)
            (topNOrDefault bodyTopN))⟩,
        c1.set (digestKey (topNOrDefault bodyTopN)
          ((jsTrim bodyText).take cfg.MAX_INPUT_CHARS))
          ⟨((jsTrim bodyText).take cfg.MAX_INPUT_CHARS).length,
            if topNOrDefault bodyTopN = 1
            then Cld3Result.single
              (det.findLanguage ((jsTrim bodyText).take cfg.MAX_INPUT_CHARS))
            else Cld3Result.ranked (det.findMostFrequentLanguages
              ((jsTrim bodyText).take cfg.MAX_INPUT_CHARS)
              (topNOrDefault bodyTopN))⟩, 1⟩ := by
  unfold classify
  rw [if_neg (by decide : ¬ (true = false))]
  dsimp only
  rw [if_neg hne, if_neg hlen, hget]

theorem classifyExact_hit {cfg : Config} (det : Detector) {cache : Cache}
    {bodyText : List Char} {bodyTopN : Option Nat} {v : Response} {c1 : Cache}
    (hne : jsTrim bodyText ≠ [])
    (hlen : ¬ (0 < cfg.MIN_LEN ∧
      (((jsTrim bodyText).length : Nat) : Int) < cfg.MIN_LEN))
    (hget : cache.get (exactKey (topNOrDefault bodyTopN) (jsTrim bodyText)) =
      (some v, c1)) :
    classifyExact cfg det true cache bodyText bodyTopN = ⟨.ok v, c1, 0⟩ := by
  unfold classifyExact
  rw [if_neg (by decide : ¬ (true = false))]
  dsimp only
  rw [if_neg hne, if_neg hlen, hget]

theorem classifyExact_miss {cfg : Config} (det : Detector) {cache : Cache}
    {bodyText : List Char} {bodyTopN : Option Nat} {c1 : Cache}
    (hne : jsTrim bodyText ≠ [])
    (hlen : ¬ (0 < cfg.MIN_LEN ∧
      (((jsTrim bodyText).length : Nat) : Int) < cfg.MIN_LEN))
    (hget : cache.get (exactKey (topNOrDefault bodyTopN) (jsTrim bodyText)) =
      (none, c1)) :
    classifyExact cfg det true cache bodyText bodyTopN =
      ⟨.ok ⟨(jsTrim bodyText).length,
          if topNOrDefault bodyTopN = 1
          then Cld3Result.single (det.findLanguage (jsTrim bodyText))
          else Cld3Result.ranked (det.findMostFrequentLanguages
            (jsTrim bodyText) (topNOrDefault bodyTopN))⟩,
        c1.set (exactKey (topNOrDefault bodyTopN) (jsTrim bodyText))
          ⟨(jsTrim bodyText).length,
            if topNOrDefault bodyTopN = 1
            then Cld3Result.single (det.findLanguage (jsTrim bodyText))
            else Cld3Result.ranked (det.findMostFrequentLanguages
              (jsTrim bodyText) (topNOrDefault bodyTopN))⟩, 1⟩ := by
  unfold classifyExact
  rw [if_neg (by decide : ¬ (true = false))]
  dsimp only
  rw [if_neg hne, if_neg hlen, hget]

theorem classify_empty {cfg : Config} {det : Detector} {cache : Cache}
    {bodyText : List Char} {bodyTopN : Option Nat}
    (h : (jsTrim bodyText).take cfg.MAX_INPUT_CHARS = []) :
    classify cfg det true cache bodyText bodyTopN =
      ⟨.err 400 "Empty 'text'.", cache, 0⟩ := by
  unfold classify
  rw [if_neg (by decide : ¬ (true = false))]
  dsimp only
  rw [if_pos h]

theorem classify_fastfail {cfg : Config} {det : Detector} {cache : Cache}
    {bodyText : List Char} {bodyTopN : Option Nat}
    (hne : (jsTrim bodyText).take cfg.MAX_INPUT_CHARS ≠ [])
    (h : 0 < cfg.MIN_LEN ∧
      ((((jsTrim bodyText).take cfg.MAX_INPUT_CHARS).length : Nat) : Int) <
        cfg.MIN_LEN) :
    classify cfg det true cache bodyText bodyTopN =
      ⟨.ok ⟨((jsTrim bodyText).take cfg.MAX_INPUT_CHARS).length,
        if topNOrDefault bodyTopN = 1 then .single undRecord
        else .ranked []⟩, cache, 0⟩ := by
  unfold classify
  rw [if_neg (by decide : ¬ (true = false))]
  dsimp only
  rw [if_neg hne, if_pos h]

theorem classifyExact_empty {cfg : Config} {det : Detector} {cache : Cache}
    {bodyText : List Char} {bodyTopN : Option Nat}
    (h : jsTrim bodyText = []) :
    classifyExact cfg det true cache bodyText bodyTopN =
      ⟨.err 400 "Empty 'text'.", cache, 0⟩ := by
  unfold classifyExact
  rw [if_neg (by decide : ¬ (true = false))]
  dsimp only
  rw [if_pos h]

theorem classifyExact_fastfail {cfg : Config} {det : Detector}
    {cache : Cache} {bodyText : List Char} {bodyTopN : Option Nat}
    (hne : jsTrim bodyText ≠ [])
    (h : 0 < cfg.MIN_LEN ∧
      (((jsTrim bodyText).length : Nat) : Int) < cfg.MIN_LEN) :
    classifyExact cfg det true cache bodyText bodyTopN =
      ⟨.ok ⟨(jsTrim bodyText).length, .single undRecord⟩, cache, 0⟩ := by
  unfold classifyExact
  rw [if_neg (by decide : ¬ (true = false))]
  dsimp only
  rw [if_neg hne, if_pos h]

/-! ## Claim C6 -/

/-- C6: while the detector handle is not initialized, both variants
reject /classify with `503 {error: "Detector not ready yet."}`, leaving
the cache untouched and invoking the detector zero times. -/
theorem C6_not_ready_rejected :
    ∀ (cfg : Config) (det : Detector) (cache : Cache) (bodyText : List Char)
      (bodyTopN : Option Nat),
      classify cfg det false cache bodyText bodyTopN =
        ⟨.err 503 "Detector not ready yet.", cache, 0⟩ ∧
      classifyExact cfg det false cache bodyText bodyTopN =
        ⟨.err 503 "Detector not ready yet.", cache, 0⟩ :=
  fun _ _ _ _ _ => ⟨rfl, rfl⟩

/-! ## Claim C7 -/

/-- C7: a request on the fast-fail path (positive `MIN_LEN`, non-empty
normalized text shorter than it) neither reads nor writes the cache —
the resulting cache state, contents and recency order included, is the
input cache — and never invokes the detector; in both variants. -/
theorem C7_fastfail_bypasses_cache :
    ∀ (cfg : Config) (det : Detector) (cache : Cache) (bodyText : List Char)
      (bodyTopN : Option Nat),
      0 < cfg.MIN_LEN →
      (((jsTrim bodyText).take cfg.MAX_INPUT_CHARS ≠ [] ∧
        ((((jsTrim bodyText).take cfg.MAX_INPUT_CHARS).length : Nat) : Int) <
          cfg.MIN_LEN) →
        (classify cfg det true cache bodyText bodyTopN).cache = cache ∧
        (classify cfg det true cache bodyText bodyTopN).detCalls = 0) ∧
      ((jsTrim bodyText ≠ [] ∧
        (((jsTrim bodyText).length : Nat) : Int) < cfg.MIN_LEN) →
        (classifyExact cfg det true cache bodyText bodyTopN).cache = cache ∧
        (classifyExact cfg det true cache bodyText bodyTopN).detCalls = 0) := by
  intro cfg det cache bodyText bodyTopN hpos
  constructor
  · rintro ⟨hne, hlt⟩
    unfold classify
    rw [if_neg (by decide : ¬ (true = false))]
    dsimp only
    rw [if_neg hne, if_pos ⟨hpos, hlt⟩]
    exact ⟨rfl, rfl⟩
  · rintro ⟨hne, hlt⟩
    unfold classifyExact
    rw [if_neg (by decide : ¬ (true = false))]
    dsimp only
    rw [if_neg hne, if_pos ⟨hpos, hlt⟩]
    exact ⟨rfl, rfl⟩

/-- C7 witness: a concrete short text under `MIN_LEN = 10`. -/
theorem C7_fastfail_bypasses_cache_witness :
    ((classify ⟨10, 4000⟩ echoDet true (LRU.empty 5000)
      "hi".data (some 3)).cache = LRU.empty 5000 ∧
    (classify ⟨10, 4000⟩ echoDet true (LRU.empty 5000)
      "hi".data (some 3)).detCalls = 0) ∧
    ((classifyExact ⟨10, 4000⟩ echoDet true (LRU.empty 5000)
      "hi".data (some 3)).cache = LRU.empty 5000 ∧
    (classifyExact ⟨10, 4000⟩ echoDet true (LRU.empty 5000)
      "hi".data (some 3)).detCalls = 0) :=
  ⟨(C7_fastfail_bypasses_cache ⟨10, 4000⟩ echoDet (LRU.empty 5000)
      "hi".data (some 3) (by decide)).1 ⟨by decide, by decide⟩,
   (C7_fastfail_bypasses_cache ⟨10, 4000⟩ echoDet (LRU.empty 5000)
      "hi".data (some 3) (by decide)).2 ⟨by decide, by decide⟩⟩

/-! ## Claim C3 -/

/-- C3 (amended): on the fast-fail path, the digest-key variant
(`server.js`) returns `{language: "und", probability: 0, is_reliable:
false, proportion: 0}` for effective `topN = 1` and an empty ranked
sequence for `topN > 1`, as the claim states; the exact-key variant
always returns the single `und` record, regardless of `topN`. -/
theorem C3_fastfail_response_shape :
    ∀ (cfg : Config) (det : Detector) (cache : Cache) (bodyText : List Char)
      (bodyTopN : Option Nat),
      0 < cfg.MIN_LEN →
      (((jsTrim bodyText).take cfg.MAX_INPUT_CHARS ≠ [] ∧
        ((((jsTrim bodyText).take cfg.MAX_INPUT_CHARS).length : Nat) : Int) <
          cfg.MIN_LEN) →
        (classify cfg det true cache bodyText bodyTopN).reply =
          .ok ⟨((jsTrim bodyText).take cfg.MAX_INPUT_CHARS).length,
            if topNOrDefault bodyTopN = 1 then .single undRecord
            else .ranked []⟩) ∧
      ((jsTrim bodyText ≠ [] ∧
        (((jsTrim bodyText).length : Nat) : Int) < cfg.MIN_LEN) →
        (classifyExact cfg det true cache bodyText bodyTopN).reply =
          .ok ⟨(jsTrim bodyText).length, .single undRecord⟩) := by
  intro cfg det cache bodyText bodyTopN hpos
  constructor
  · rintro ⟨hne, hlt⟩
    unfold classify
    rw [if_neg (by decide : ¬ (true = false))]
    dsimp only
    rw [if_neg hne, if_pos ⟨hpos, hlt⟩]
  · rintro ⟨hne, hlt⟩
    unfold classifyExact
    rw [if_neg (by decide : ¬ (true = false))]
    dsimp only
    rw [if_neg hne, if_pos ⟨hpos, hlt⟩]

/-- C3 witness: a 2-character text under `MIN_LEN = 10`, with `topN = 3`
(digest variant: empty ranked sequence) and `topN = 1` implicitly via a
missing `topN` (single `und` record). -/
theorem C3_fastfail_response_shape_witness :
    ((classify ⟨10, 4000⟩ echoDet true (LRU.empty 5000)
        "hi".data (some 3)).reply = .ok ⟨2, .ranked []⟩) ∧
    ((classify ⟨10, 4000⟩ echoDet true (LRU.empty 5000)
        "hi".data none).reply = .ok ⟨2, .single undRecord⟩) ∧
    ((classifyExact ⟨10, 4000⟩ echoDet true (LRU.empty 5000)
        "hi".data (some 3)).reply = .ok ⟨2, .single undRecord⟩) := by
  refine ⟨?_, ?_, ?_⟩
  · have h := (C3_fastfail_response_shape ⟨10, 4000⟩ echoDet (LRU.empty 5000)
      "hi".data (some 3) (by decide)).1 ⟨by decide, by decide⟩
    rw [h]
    decide
  · have h := (C3_fastfail_response_shape ⟨10, 4000⟩ echoDet (LRU.empty 5000)
      "hi".data none (by decide)).1 ⟨by decide, by decide⟩
    rw [h]
    decide
  · exact (C3_fastfail_response_shape ⟨10, 4000⟩ echoDet (LRU.empty 5000)
      "hi".data (some 3) (by decide)).2 ⟨by decide, by decide⟩

/-- C3 counterexample: in the exact-key variant, a fast-fail request
with `topN = 3` returns the single `und` record, not the empty ranked
sequence the claim requires for `topN > 1`. -/
theorem C3_fastfail_response_shape_cex :
    (classifyExact ⟨10, 4000⟩ echoDet true (LRU.empty 5000)
      "hi".data (some 3)).reply = .ok ⟨2, .single undRecord⟩ ∧
    Reply.ok ⟨2, .single undRecord⟩ ≠ Reply.ok ⟨2, .ranked []⟩ := by
  decide

/-! ## Claim C2 -/

/-- C2: with the detector ready, cache capacity ≥ 1 (and well-formed
keys), and a normalized text that is non-empty and at least `MIN_LEN`
long, classifying the same `(topN, text)` twice in a row returns
identical responses, and the second call performs zero detector
invocations (it is served from the cache); in both variants. -/
theorem C2_repeat_is_identical_and_cached :
    ∀ (cfg : Config) (det : Detector) (cache : Cache) (bodyText : List Char)
      (bodyTopN : Option Nat),
      1 ≤ cache.max → (keysOf cache.map).Nodup →
      (((jsTrim bodyText).take cfg.MAX_INPUT_CHARS ≠ [] ∧
        cfg.MIN_LEN ≤
          ((((jsTrim bodyText).take cfg.MAX_INPUT_CHARS).length : Nat) : Int)) →
        ((classify cfg det true
            ((classify cfg det true cache bodyText bodyTopN).cache)
            bodyText bodyTopN).reply =
          (classify cfg det true cache bodyText bodyTopN).reply ∧
         (classify cfg det true
            ((classify cfg det true cache bodyText bodyTopN).cache)
            bodyText bodyTopN).detCalls = 0)) ∧
      ((jsTrim bodyText ≠ [] ∧
        cfg.MIN_LEN ≤ (((jsTrim bodyText).length : Nat) : Int)) →
        ((classifyExact cfg det true
            ((classifyExact cfg det true cache bodyText bodyTopN).cache)
            bodyText bodyTopN).reply =
          (classifyExact cfg det true cache bodyText bodyTopN).reply ∧
         (classifyExact cfg det true
            ((classifyExact cfg det true cache bodyText bodyTopN).cache)
            bodyText bodyTopN).detCalls = 0)) := by
  intro cfg det cache bodyText bodyTopN hmax hnd
  constructor
  · rintro ⟨hne, hge⟩
    have hlen : ¬ (0 < cfg.MIN_LEN ∧
        ((((jsTrim bodyText).take cfg.MAX_INPUT_CHARS).length : Nat) : Int) <
          cfg.MIN_LEN) := by
      rintro ⟨h1, h2⟩
      omega
    rcases hg : cache.get (digestKey (topNOrDefault bodyTopN)
        ((jsTrim bodyText).take cfg.MAX_INPUT_CHARS)) with ⟨o, c1⟩
    cases o with
    | some v =>
      have h1 := classify_hit det hne hlen hg
      have h' : (cache.get (digestKey (topNOrDefault bodyTopN)
          ((jsTrim bodyText).take cfg.MAX_INPUT_CHARS))).1 = some v := by
        rw [hg]
      have hv := LRU.get_hit_mapGet h'
      rw [hg] at hv
      have h2 := classify_hit det hne hlen
        (LRU.get_of_mapGet_some hv)
      rw [h1]
      dsimp only
      rw [h2]
      exact ⟨rfl, rfl⟩
    | none =>
      obtain ⟨hc1, _⟩ := LRU.get_none hg
      have h1 := classify_miss det hne hlen hg
      rw [hc1] at h1
      have h2 := classify_hit det hne hlen
        (LRU.get_of_mapGet_some (LRU.set_get_self cache
          (digestKey (topNOrDefault bodyTopN)
            ((jsTrim bodyText).take cfg.MAX_INPUT_CHARS))
          ⟨((jsTrim bodyText).take cfg.MAX_INPUT_CHARS).length,
            if topNOrDefault bodyTopN = 1
            then Cld3Result.single
              (det.findLanguage ((jsTrim bodyText).take cfg.MAX_INPUT_CHARS))
            else Cld3Result.ranked (det.findMostFrequentLanguages
              ((jsTrim bodyText).take cfg.MAX_INPUT_CHARS)
              (topNOrDefault bodyTopN))⟩
          (by omega) hnd))
      rw [h1]
      dsimp only
      rw [h2]
      exact ⟨rfl, rfl⟩
  · rintro ⟨hne, hge⟩
    have hlen : ¬ (0 < cfg.MIN_LEN ∧
        (((jsTrim bodyText).length : Nat) : Int) < cfg.MIN_LEN) := by
      rintro ⟨h1, h2⟩
      omega
    rcases hg : cache.get (exactKey (topNOrDefault bodyTopN)
        (jsTrim bodyText)) with ⟨o, c1⟩
    cases o with
    | some v =>
      have h1 := classifyExact_hit det hne hlen hg
      have h' : (cache.get (exactKey (topNOrDefault bodyTopN)
          (jsTrim bodyText))).1 = some v := by
        rw [hg]
      have hv := LRU.get_hit_mapGet h'
      rw [hg] at hv
      have h2 := classifyExact_hit det hne hlen
        (LRU.get_of_mapGet_some hv)
      rw [h1]
      dsimp only
      rw [h2]
      exact ⟨rfl, rfl⟩
    | none =>
      obtain ⟨hc1, _⟩ := LRU.get_none hg
      have h1 := classifyExact_miss det hne hlen hg
      rw [hc1] at h1
      have h2 := classifyExact_hit det hne hlen
        (LRU.get_of_mapGet_some (LRU.set_get_self cache
          (exactKey (topNOrDefault bodyTopN) (jsTrim bodyText))
          ⟨(jsTrim bodyText).length,
            if topNOrDefault bodyTopN = 1
            then Cld3Result.single (det.findLanguage (jsTrim bodyText))
            else Cld3Result.ranked (det.findMostFrequentLanguages
              (jsTrim bodyText) (topNOrDefault bodyTopN))⟩
          (by omega) hnd))
      rw [h1]
      dsimp only
      rw [h2]
      exact ⟨rfl, rfl⟩

/-- C2 witness: a concrete 10-character text classified twice from the
empty cache, in both variants. -/
theorem C2_repeat_is_identical_and_cached_witness :
    ((classify ⟨10, 4000⟩ echoDet true
        ((classify ⟨10, 4000⟩ echoDet true (LRU.empty 5000)
          "abcdefghij".data none).cache) "abcdefghij".data none).reply =
      (classify ⟨10, 4000⟩ echoDet true (LRU.empty 5000)
        "abcdefghij".data none).reply ∧
     (classify ⟨10, 4000⟩ echoDet true
        ((classify ⟨10, 4000⟩ echoDet true (LRU.empty 5000)
          "abcdefghij".data none).cache) "abcdefghij".data none).detCalls =
       0) ∧
    ((classifyExact ⟨10, 4000⟩ echoDet true
        ((classifyExact ⟨10, 4000⟩ echoDet true (LRU.empty 5000)
          "abcdefghij".data none).cache) "abcdefghij".data none).reply =
      (classifyExact ⟨10, 4000⟩ echoDet true (LRU.empty 5000)
        "abcdefghij".data none).reply ∧
     (classifyExact ⟨10, 4000⟩ echoDet true
        ((classifyExact ⟨10, 4000⟩ echoDet true (LRU.empty 5000)
          "abcdefghij".data none).cache) "abcdefghij".data none).detCalls =
       0) :=
  ⟨(C2_repeat_is_identical_and_cached ⟨10, 4000⟩ echoDet (LRU.empty 5000)
      "abcdefghij".data none (by decide) (by decide)).1
    ⟨by decide, by decide⟩,
   (C2_repeat_is_identical_and_cached ⟨10, 4000⟩ echoDet (LRU.empty 5000)
      "abcdefghij".data none (by decide) (by decide)).2
    ⟨by decide, by decide⟩⟩

/-! ## Claim C4 -/

/-- C4 (amended): the digest-key variant (`server.js`) trims then
truncates to `MAX_INPUT_CHARS`: a freshly computed (detector-invoking)
response carries `input_len` equal to the trimmed-and-truncated length,
and the handler's result depends on the detector only through texts of
length at most `MAX_INPUT_CHARS` (so no longer text is ever passed to
it). The exact-key variant only trims — it has no truncation at all, and
a freshly computed response carries the full trimmed length. -/
theorem C4_trim_truncate_input_len :
    ∀ (cfg : Config) (det det2 : Detector) (cache : Cache)
      (bodyText : List Char) (bodyTopN : Option Nat),
      ((classify cfg det true cache bodyText bodyTopN).detCalls = 1 →
        ∃ res, (classify cfg det true cache bodyText bodyTopN).reply =
          .ok ⟨((jsTrim bodyText).take cfg.MAX_INPUT_CHARS).length, res⟩) ∧
      ((∀ t : List Char, t.length ≤ cfg.MAX_INPUT_CHARS →
          det.findLanguage t = det2.findLanguage t ∧
          ∀ n, det.findMostFrequentLanguages t n =
            det2.findMostFrequentLanguages t n) →
        classify cfg det true cache bodyText bodyTopN =
          classify cfg det2 true cache bodyText bodyTopN) ∧
      ((classifyExact cfg det true cache bodyText bodyTopN).detCalls = 1 →
        ∃ res, (classifyExact cfg det true cache bodyText bodyTopN).reply =
          .ok ⟨(jsTrim bodyText).length, res⟩) := by
  intro cfg det det2 cache bodyText bodyTopN
  refine ⟨?_, ?_, ?_⟩
  · intro hcalls
    by_cases h1 : (jsTrim bodyText).take cfg.MAX_INPUT_CHARS = []
    · rw [classify_empty h1] at hcalls
      simp at hcalls
    · by_cases h2 : 0 < cfg.MIN_LEN ∧
          ((((jsTrim bodyText).take cfg.MAX_INPUT_CHARS).length : Nat) :
            Int) < cfg.MIN_LEN
      · rw [classify_fastfail h1 h2] at hcalls
        simp at hcalls
      · rcases hg : cache.get (digestKey (topNOrDefault bodyTopN)
            ((jsTrim bodyText).take cfg.MAX_INPUT_CHARS)) with ⟨o, c1⟩
        cases o with
        | some v =>
          rw [classify_hit det h1 h2 hg] at hcalls
          simp at hcalls
        | none =>
          rw [classify_miss det h1 h2 hg]
          exact ⟨_, rfl⟩
  · intro hagree
    by_cases h1 : (jsTrim bodyText).take cfg.MAX_INPUT_CHARS = []
    · rw [classify_empty h1, classify_empty h1]
    · by_cases h2 : 0 < cfg.MIN_LEN ∧
          ((((jsTrim bodyText).take cfg.MAX_INPUT_CHARS).length : Nat) :
            Int) < cfg.MIN_LEN
      · rw [classify_fastfail h1 h2, classify_fastfail h1 h2]
      · rcases hg : cache.get (digestKey (topNOrDefault bodyTopN)
            ((jsTrim bodyText).take cfg.MAX_INPUT_CHARS)) with ⟨o, c1⟩
        cases o with
        | some v =>
          rw [classify_hit det h1 h2 hg,
            classify_hit det2 h1 h2 hg]
        | none =>
          rw [classify_miss det h1 h2 hg,
            classify_miss det2 h1 h2 hg]
          have htle : ((jsTrim bodyText).take cfg.MAX_INPUT_CHARS).length ≤
              cfg.MAX_INPUT_CHARS := by
            rw [List.length_take]
            exact min_le_left _ _
          obtain ⟨hf, hm⟩ := hagree _ htle
          rw [hf, hm (topNOrDefault bodyTopN)]
  · intro hcalls
    by_cases h1 : jsTrim bodyText = []
    · rw [classifyExact_empty h1] at hcalls
      simp at hcalls
    · by_cases h2 : 0 < cfg.MIN_LEN ∧
          (((jsTrim bodyText).length : Nat) : Int) < cfg.MIN_LEN
      · rw [classifyExact_fastfail h1 h2] at hcalls
        simp at hcalls
      · rcases hg : cache.get (exactKey (topNOrDefault bodyTopN)
            (jsTrim bodyText)) with ⟨o, c1⟩
        cases o with
        | some v =>
          rw [classifyExact_hit det h1 h2 hg] at hcalls
          simp at hcalls
        | none =>
          rw [classifyExact_miss det h1 h2 hg]
          exact ⟨_, rfl⟩

/-- C4 witness: concrete fresh classifications in both variants, and the
detector-agreement property applied to a detector paired with itself. -/
theorem C4_trim_truncate_input_len_witness :
    (∃ res, (classify ⟨10, 4000⟩ echoDet true (LRU.empty 5000)
      "abcdefghij".data none).reply = .ok ⟨10, res⟩) ∧
    (classify ⟨10, 4000⟩ echoDet true (LRU.empty 5000)
      "abcdefghij".data none =
     classify ⟨10, 4000⟩ echoDet true (LRU.empty 5000)
      "abcdefghij".data none) ∧
    (∃ res, (classifyExact ⟨10, 4000⟩ echoDet true (LRU.empty 5000)
      "abcdefghij".data none).reply = .ok ⟨10, res⟩) :=
  ⟨(C4_trim_truncate_input_len ⟨10, 4000⟩ echoDet echoDet (LRU.empty 5000)
      "abcdefghij".data none).1 (by decide),
   (C4_trim_truncate_input_len ⟨10, 4000⟩ echoDet echoDet (LRU.empty 5000)
      "abcdefghij".data none).2.1 (fun _ _ => ⟨rfl, fun _ => rfl⟩),
   (C4_trim_truncate_input_len ⟨10, 4000⟩ echoDet echoDet (LRU.empty 5000)
      "abcdefghij".data none).2.2 (by decide)⟩

/-- C4 counterexample: the exact-key variant passes untruncated text to
the detector and reports its full length. With the configured maximum at
3 characters and fast-fail disabled, the 5-character input "hello"
reaches the detector whole (`lenDet` reports seeing 5 characters) and
`input_len = 5 > 3`. -/
theorem C4_trim_truncate_input_len_cex :
    (classifyExact ⟨0, 3⟩ lenDet true (LRU.empty 5000)
      "hello".data none).reply = .ok ⟨5, .single ⟨"5", 0, false, 0⟩⟩ ∧
    ¬ (5 ≤ 3) := by
  decide

/-! ## Claim C5 -/

theorem append_cons_inj {x y r r' : List Char} {c : Char}
    (hx : c ∉ x) (hy : c ∉ y) (h : x ++ c :: r = y ++ c :: r') :
    x = y ∧ r = r' := by
  induction x generalizing y with
  | nil =>
    cases y with
    | nil => simpa using h
    | cons b ys =>
      injection h with h1 h2
      subst h1
      exact absurd (List.mem_cons_self _ _) hy
  | cons a xs ih =>
    cases y with
    | nil =>
      injection h with h1 h2
      subst h1
      exact absurd (List.mem_cons_self _ _) hx
    | cons b ys =>
      injection h with h1 h2
      subst h1
      have hx' : c ∉ xs := fun hm => hx (List.mem_cons_of_mem _ hm)
      have hy' : c ∉ ys := fun hm => hy (List.mem_cons_of_mem _ hm)
      obtain ⟨h3, h4⟩ := ih hx' hy' h2
      exact ⟨by rw [h3], h4⟩

theorem natToString_inj_on_le10 :
    ∀ a : Nat, a ≤ 10 → ∀ b : Nat, b ≤ 10 → a ≠ b →
      toString a ≠ toString b := by
  decide

theorem colon_not_mem_natToString_le10 :
    ∀ a : Nat, a ≤ 10 → ':' ∉ (toString a).data := by
  decide

theorem nul_not_mem_natToString_le10 :
    ∀ a : Nat, a ≤ 10 → Char.ofNat 0 ∉ (toString a).data := by
  decide

theorem digestKey_data (topN : Nat) (text : List Char) :
    (digestKey topN text).data =
      (toString topN).data ++ ':' ::
        ((toString (fnv1a text)).data ++ ':' ::
          (toString text.length).data) := by
  show ((((toString topN ++ ":") ++ toString (fnv1a text)) ++ ":") ++
      toString text.length).data = _
  simp only [String.data_append, List.append_assoc]
  rfl

theorem exactKey_one_data (text : List Char) :
    (exactKey 1 text).data = text := by
  unfold exactKey
  rw [if_pos rfl]

theorem exactKey_data_of_ne_one {topN : Nat} (h : topN ≠ 1)
    (text : List Char) :
    (exactKey topN text).data =
      (toString topN).data ++ Char.ofNat 0 :: text := by
  unfold exactKey
  rw [if_neg h]
  simp only [String.data_append, List.append_assoc]
  rfl

/-- C5: in both variants the cache key is a deterministic function of
`(topN, normalized text)` (equal inputs give equal keys), and for a
fixed text any two different `topN` values in `[1, 10]` give different
keys. -/
theorem C5_cache_key_deterministic_and_topN_injective :
    (∀ (a b : Nat) (ta tb : List Char), a = b → ta = tb →
      digestKey a ta = digestKey b tb ∧ exactKey a ta = exactKey b tb) ∧
    (∀ (t : List Char) (a b : Nat), 1 ≤ a → a ≤ 10 → 1 ≤ b → b ≤ 10 →
      a ≠ b → digestKey a t ≠ digestKey b t ∧ exactKey a t ≠ exactKey b t) := by
  constructor
  · rintro a b ta tb rfl rfl
    exact ⟨rfl, rfl⟩
  · intro t a b ha1 ha10 hb1 hb10 hne
    constructor
    · intro heq
      have hd := congrArg String.data heq
      rw [digestKey_data, digestKey_data] at hd
      obtain ⟨h1, _⟩ := append_cons_inj
        (colon_not_mem_natToString_le10 a ha10)
        (colon_not_mem_natToString_le10 b hb10) hd
      exact natToString_inj_on_le10 a ha10 b hb10 hne (String.ext h1)
    · intro heq
      by_cases ha : a = 1
      · subst ha
        have hb' : b ≠ 1 := fun h => hne h.symm
        have hd := congrArg String.data heq
        rw [exactKey_one_data, exactKey_data_of_ne_one hb'] at hd
        have hlen := congrArg List.length hd
        simp only [List.length_append, List.length_cons] at hlen
        omega
      · by_cases hb' : b = 1
        · subst hb'
          have hd := congrArg String.data heq
          rw [exactKey_data_of_ne_one ha, exactKey_one_data] at hd
          have hlen := congrArg List.length hd
          simp only [List.length_append, List.length_cons] at hlen
          omega
        · have hd := congrArg String.data heq
          rw [exactKey_data_of_ne_one ha, exactKey_data_of_ne_one hb'] at hd
          obtain ⟨h1, _⟩ := append_cons_inj
            (nul_not_mem_natToString_le10 a ha10)
            (nul_not_mem_natToString_le10 b hb10) hd
          exact natToString_inj_on_le10 a ha10 b hb10 hne (String.ext h1)

/-- C5 witness: determinism and injectivity at concrete inputs. -/
theorem C5_cache_key_deterministic_and_topN_injective_witness :
    (digestKey 3 "hi".data = digestKey 3 "hi".data ∧
      exactKey 3 "hi".data = exactKey 3 "hi".data) ∧
    (digestKey 1 "hi".data ≠ digestKey 2 "hi".data ∧
      exactKey 1 "hi".data ≠ exactKey 2 "hi".data) :=
  ⟨(C5_cache_key_deterministic_and_topN_injective.1 3 3 "hi".data "hi".data
      rfl rfl),
   (C5_cache_key_deterministic_and_topN_injective.2 "hi".data 1 2
      (by decide) (by decide) (by decide) (by decide) (by decide))⟩

/-! ## Claim C9 -/

/-- C9: the digest-key variant has a genuine cache-key collision:
"declinate" and "macallums" are distinct 9-character texts with the same
32-bit FNV-1a hash, hence the same cache key for the same `topN`;
classifying the first and then the second (with a detector that answers
differently on the two texts) returns the first text's cached response
for the second text. -/
theorem C9_digest_key_collision_returns_stale :
    "declinate".data ≠ "macallums".data ∧
    "declinate".data.length = "macallums".data.length ∧
    fnv1a "declinate".data = fnv1a "macallums".data ∧
    digestKey 1 "declinate".data = digestKey 1 "macallums".data ∧
    (classify ⟨5, 4000⟩ echoDet true
        ((classify ⟨5, 4000⟩ echoDet true (LRU.empty 5000)
          "declinate".data none).cache) "macallums".data none).reply =
      (classify ⟨5, 4000⟩ echoDet true (LRU.empty 5000)
        "declinate".data none).reply ∧
    (classify ⟨5, 4000⟩ echoDet true
        ((classify ⟨5, 4000⟩ echoDet true (LRU.empty 5000)
          "declinate".data none).cache) "macallums".data none).reply =
      .ok ⟨9, .single ⟨"declinate", 1, true, 1⟩⟩ ∧
    echoDet.findLanguage "macallums".data ≠ ⟨"declinate", 1, true, 1⟩ := by
  decide

/-! ## Claim C10 -/

theorem classify_ready_not_notReady (cfg : Config) (det : Detector)
    (cache : Cache) (bodyText : List Char) (bodyTopN : Option Nat) :
    (classify cfg det true cache bodyText bodyTopN).reply ≠
      Reply.err 503 "Detector not ready yet." ∧
    (classifyExact cfg det true cache bodyText bodyTopN).reply ≠
      Reply.err 503 "Detector not ready yet." := by
  constructor
  · unfold classify
    rw [if_neg (by decide : ¬ (true = false))]
    dsimp only
    repeat' split
    all_goals simp
  · unfold classifyExact
    rw [if_neg (by decide : ¬ (true = false))]
    dsimp only
    repeat' split
    all_goals simp

/-- C10: module evaluation awaits detector initialization before
`app.listen`: if initialization throws the process never listens, and
every listening state carries an assigned (non-null) detector handle, so
a served request never takes the 503 not-ready branch of /classify and
/ready answers `200 {ok: true}`; in both variants. -/
theorem C10_init_awaited_before_listen :
    (runStartup none = none) ∧
    (∀ (d : Option Detector) (s : ServerState), runStartup d = some s →
      s.identifier.isSome = true ∧ s.listening = true ∧
      readyEndpoint s.identifier.isSome = (200, true) ∧
      (∀ (cfg : Config) (det : Detector) (cache : Cache)
          (bodyText : List Char) (bodyTopN : Option Nat),
        (classify cfg det s.identifier.isSome cache bodyText
            bodyTopN).reply ≠ Reply.err 503 "Detector not ready yet." ∧
        (classifyExact cfg det s.identifier.isSome cache bodyText
            bodyTopN).reply ≠ Reply.err 503 "Detector not ready yet.")) := by
  refine ⟨rfl, ?_⟩
  intro d s h
  cases d with
  | none => exact absurd h (by simp [runStartup])
  | some d0 =>
    simp only [runStartup] at h
    injection h with h'
    subst h'
    exact ⟨rfl, rfl, rfl, fun cfg det cache bodyText bodyTopN =>
      classify_ready_not_notReady cfg det cache bodyText bodyTopN⟩

/-- C10 witness: a concrete successful startup. -/
theorem C10_init_awaited_before_listen_witness :
    (runStartup none = none) ∧
    ((⟨some echoDet, true⟩ : ServerState).identifier.isSome = true) ∧
    ((classify ⟨10, 4000⟩ echoDet
        ((⟨some echoDet, true⟩ : ServerState).identifier.isSome)
        (LRU.empty 5000) "hi".data none).reply ≠
      Reply.err 503 "Detector not ready yet.") :=
  ⟨C10_init_awaited_before_listen.1,
   (C10_init_awaited_before_listen.2 (some echoDet) ⟨some echoDet, true⟩
      rfl).1,
   ((C10_init_awaited_before_listen.2 (some echoDet) ⟨some echoDet, true⟩
      rfl).2.2.2 ⟨10, 4000⟩ echoDet (LRU.empty 5000) "hi".data none).1⟩

end Cld3
